import Mathlib

/-!
Verification of the LLMHTML RAG service against its specification.

The definitions below are a shallow embedding of the Python sources:
`app/modular_rag.py` (the retrieval orchestrator), `app/database.py`
(the VectorDatabase.search wrapper), `app/memory.py` (the in-memory
conversation store), and `app/gemini_client.py` (the LLM retry loop).
-/

namespace LLMHTML

/-! ## Python string primitives -/

/-- Whitespace characters recognized by Python `str.split()` with no argument. -/
def isWS (c : Char) : Bool :=
  c = ' ' || c = '\t' || c = '\n' || c = '\r' || c = '\x0b' || c = '\x0c'

/-- Helper for `pySplit`: `acc` is the current token, reversed. -/
def splitWSAux : List Char → List Char → List (List Char)
  | acc, [] => if acc.isEmpty then [] else [acc.reverse]
  | acc, c :: cs =>
    if isWS c then
      if acc.isEmpty then splitWSAux [] cs else acc.reverse :: splitWSAux [] cs
    else
      splitWSAux (c :: acc) cs

/-- Python `s.split()`: split on whitespace runs, dropping empty tokens. -/
def pySplit (s : String) : List String :=
  (splitWSAux [] s.data).map List.asString

/-- Python `s.lower()`, restricted to ASCII (all inputs in this development are ASCII). -/
def pyLower (s : String) : String :=
  (s.data.map Char.toLower).asString

/-- Does `hay` start with `needle`? -/
def startsWith : List Char → List Char → Bool
  | [], _ => true
  | _ :: _, [] => false
  | a :: as, b :: bs => a = b && startsWith as bs

/-- Substring containment of `needle` in the list, scanning every suffix. -/
def containsSub (needle : List Char) : List Char → Bool
  | [] => needle.isEmpty
  | c :: t => startsWith needle (c :: t) || containsSub needle t

/-- Python `needle in hay` on strings (substring containment). -/
def pyIn (needle hay : String) : Bool :=
  containsSub needle.data hay.data

/-! ## Vector store model (`app/database.py`) -/

/-- Shape of a ChromaDB query result: one inner list per query text.
The error shape `{"documents": [], "metadatas": []}` has empty outer lists. -/
structure StoreResult (M : Type) where
  documents : List (List String)
  metadatas : List (List M)
deriving DecidableEq

/-- The Python exceptions distinguished in this development. -/
inductive PyErr
  /-- An exception raised by the underlying `collection.query` call. -/
  | storeErr
  /-- `IndexError` from indexing `[0]` into an empty list. -/
  | indexErr
  /-- `ValueError` from an unrecognized strategy tag. -/
  | valueErr
deriving DecidableEq

/-- The external ChromaDB collection: its query calls may raise.
`collQueryFiltered` is the keyword path, abstracting the `$or` metadata
filter built from the keyword list together with the joined dummy query. -/
structure VStore (M : Type) where
  collQuery : String → Nat → Except PyErr (StoreResult M)
  collQueryFiltered : List String → Nat → Except PyErr (StoreResult M)

/-- `VectorDatabase.search`: catches any exception from the collection query
and returns the empty result dict instead. -/
def vdbSearch {M : Type} (r : Except PyErr (StoreResult M)) : StoreResult M :=
  match r with
  | .ok res => res
  | .error _ => ⟨[], []⟩

/-- Python `l[0]`: `IndexError` on the empty list. -/
def pyHead {α : Type} : List α → Except PyErr α
  | [] => .error .indexErr
  | x :: _ => .ok x

/-- A ChromaDB result for a single query text: exactly one inner document
list and one inner metadata list, paired by index. -/
def PairedOk {M : Type} (r : StoreResult M) : Prop :=
  ∃ ds ms, r.documents = [ds] ∧ r.metadatas = [ms] ∧ ds.length = ms.length

/-- A well-behaved collection: every successful query is a paired
single-query result (what `collection.query` with one query text returns). -/
def VStoreOk {M : Type} (st : VStore M) : Prop :=
  (∀ q k r, st.collQuery q k = .ok r → PairedOk r) ∧
  (∀ ks k r, st.collQueryFiltered ks k = .ok r → PairedOk r)

/-! ## The retrieval orchestrator (`app/modular_rag.py`) -/

/-- The `RAGStrategy` enumeration. -/
inductive RAGStrategy
  | basic
  | hierarchical
  | hybrid
  | adaptive
deriving DecidableEq

/-- A RetrievalResult dict. Basic and hierarchical unwrap the inner lists and
return flat document/metadata lists; hybrid returns the nested Chroma shape
unchanged (both in the merge path and in the semantic-only path). -/
inductive RagResult (M : Type)
  | flat (documents : List String) (metadatas : List M) (strategy searchType : String)
  | nested (documents : List (List String)) (metadatas : List (List M))
      (strategy searchType : String)
deriving DecidableEq

/-- Document and metadata sequences have equal length, corresponding by
index (for the nested shape, at both levels). -/
def lengthsOk {M : Type} : RagResult M → Bool
  | .flat ds ms _ _ => ds.length == ms.length
  | .nested ds ms _ _ =>
    (ds.length == ms.length) && (ds.zip ms).all (fun p => p.1.length == p.2.length)

/-- `ModularRAG._basic_rag`. -/
def basicRag {M : Type} (st : VStore M) (question : String) (topK : Nat) : RagResult M :=
  let results := vdbSearch (st.collQuery question topK)
  .flat (match results.documents with | [] => [] | d0 :: _ => d0)
        (match results.metadatas with | [] => [] | m0 :: _ => m0)
        "basic" "semantic"

/-- The keyword-overlap score of `_rerank_documents`:
`sum(1 for word in question.lower().split() if word in doc.lower())`. -/
def scoreDoc (question doc : String) : Nat :=
  ((pySplit (pyLower question)).filter (fun w => pyIn w (pyLower doc))).length

/-- Insert into a descending-sorted scored list, before the first entry whose
score is ≤ the inserted score (so an earlier element precedes later ties). -/
def insertDesc (x : Nat × String) : List (Nat × String) → List (Nat × String)
  | [] => [x]
  | y :: ys => if y.1 ≤ x.1 then x :: y :: ys else y :: insertDesc x ys

/-- Python's stable `list.sort(key=lambda x: x[0], reverse=True)` as a stable
insertion sort. -/
def sortDesc : List (Nat × String) → List (Nat × String)
  | [] => []
  | x :: xs => insertDesc x (sortDesc xs)

/-- `ModularRAG._rerank_documents`. -/
def rerankDocuments (question : String) (documents : List String) : List String :=
  (sortDesc (documents.map (fun d => (scoreDoc question d, d)))).map Prod.snd

/-- `ModularRAG._hierarchical_rag`. The `if not broad_results['documents']`
guard tests the outer list; metadata is truncated by position, not re-paired
with the reranked documents. -/
def hierarchicalRag {M : Type} (st : VStore M) (question : String)
    (broadTopK finalTopK : Nat) : RagResult M :=
  let broad := vdbSearch (st.collQuery question broadTopK)
  match broad.documents with
  | [] => .flat [] [] "hierarchical" "two_stage"
  | d0 :: _ =>
    .flat ((rerankDocuments question d0).take finalTopK)
          (match broad.metadatas with | [] => [] | m0 :: _ => m0.take finalTopK)
          "hierarchical" "two_stage"

/-- The stop-word set of `_extract_keywords`. -/
def stopWords : List String :=
  ["what", "is", "the", "a", "an", "in", "on", "at", "to", "for", "of", "with", "by"]

/-- `ModularRAG._extract_keywords`. -/
def extractKeywords (question : String) : List String :=
  ((pySplit (pyLower question)).filter
    (fun w => decide (3 < w.length) && !(stopWords.contains w))).take 5

/-- `ModularRAG._keyword_search`: queries the store with the keyword filter;
its own except-clause is unreachable because `vdbSearch` already catches. -/
def keywordSearch {M : Type} (st : VStore M) (keywords : List String) (topK : Nat) :
    StoreResult M :=
  vdbSearch (st.collQueryFiltered keywords topK)

/-- State of the merge loops in `_merge_results`: the `seen_docs` set and the
merged document/metadata lists. -/
structure MergeState (M : Type) where
  seen : List String
  docs : List String
  metas : List M

/-- First merge loop body: add the pair if the document text is unseen. -/
def mergeStep1 {M : Type} (st : MergeState M) (p : String × M) : MergeState M :=
  if p.1 ∈ st.seen then st
  else ⟨p.1 :: st.seen, st.docs ++ [p.1], st.metas ++ [p.2]⟩

/-- Second merge loop body: add the pair if unseen and the merged count is
still below the cap `len(docs1) + len(docs2)`. -/
def mergeStep2 {M : Type} (cap : Nat) (st : MergeState M) (p : String × M) : MergeState M :=
  if p.1 ∉ st.seen ∧ st.docs.length < cap then
    ⟨p.1 :: st.seen, st.docs ++ [p.1], st.metas ++ [p.2]⟩
  else st

/-- `ModularRAG._merge_results`. The source indexes `[0]` into each of the
four lists, raising `IndexError` whenever a result set has the empty error
shape. The unused `alpha` parameter is omitted. -/
def mergeResults {M : Type} (results1 results2 : StoreResult M) :
    Except PyErr (StoreResult M) :=
  match pyHead results1.documents with
  | .error e => .error e
  | .ok docs1 =>
    match pyHead results2.documents with
    | .error e => .error e
    | .ok docs2 =>
      match pyHead results1.metadatas with
      | .error e => .error e
      | .ok metas1 =>
        match pyHead results2.metadatas with
        | .error e => .error e
        | .ok metas2 =>
          let s1 := (docs1.zip metas1).foldl mergeStep1 ⟨[], [], []⟩
          let s2 := (docs2.zip metas2).foldl
            (mergeStep2 (docs1.length + docs2.length)) s1
          .ok ⟨[s2.docs], [s2.metas]⟩

/-- `ModularRAG._hybrid_rag`. -/
def hybridRag {M : Type} (st : VStore M) (question : String) (topK : Nat) :
    Except PyErr (RagResult M) :=
  let semanticResults := vdbSearch (st.collQuery question topK)
  let keywords := extractKeywords question
  if keywords ≠ [] then
    match mergeResults semanticResults (keywordSearch st keywords topK) with
    | .ok c => .ok (.nested c.documents c.metadatas "hybrid" "semantic_keyword")
    | .error e => .error e
  else
    .ok (.nested semanticResults.documents semanticResults.metadatas
          "hybrid" "semantic_only")

/-- The word sets of `_assess_question_complexity`. -/
def simpleIndicators : List String :=
  ["what", "who", "when", "where"]

/-- The complex-question trigger words of `_assess_question_complexity`. -/
def complexIndicators : List String :=
  ["how", "why", "compare", "difference", "advantages", "disadvantages"]

/-- `ModularRAG._assess_question_complexity`: substring matching against the
lowercased question, complex indicators checked first. -/
def assessQuestionComplexity (question : String) : String :=
  if complexIndicators.any (fun w => pyIn w (pyLower question)) then "complex"
  else if simpleIndicators.any (fun w => pyIn w (pyLower question)) then "medium"
  else "simple"

/-- `ModularRAG._adaptive_rag`. -/
def adaptiveRag {M : Type} (st : VStore M) (question : String) (topK : Nat) :
    Except PyErr (RagResult M) :=
  if assessQuestionComplexity question = "simple" then .ok (basicRag st question topK)
  else if assessQuestionComplexity question = "medium" then hybridRag st question topK
  else .ok (hierarchicalRag st question 15 topK)

/-- `ModularRAG.execute_rag` on an already-parsed strategy; `topK` models the
`top_k` keyword argument. Hierarchical is special-cased with `broad_top_k=10`
and `final_top_k=kwargs.get('top_k', 3)`. -/
def executeRag {M : Type} (st : VStore M) (strategy : RAGStrategy) (question : String)
    (topK : Nat) : Except PyErr (RagResult M) :=
  match strategy with
  | .hierarchical => .ok (hierarchicalRag st question 10 topK)
  | .basic => .ok (basicRag st question topK)
  | .hybrid => hybridRag st question topK
  | .adaptive => adaptiveRag st question topK

/-- `RAGStrategy(value)`: the enum constructor, `ValueError` on any value that
is not one of the four member values. -/
def parseStrategy (tag : String) : Option RAGStrategy :=
  if tag = "basic" then some .basic
  else if tag = "hierarchical" then some .hierarchical
  else if tag = "hybrid" then some .hybrid
  else if tag = "adaptive" then some .adaptive
  else none

/-- `ModularRAG.execute_rag` called with a string strategy tag:
`RAGStrategy(strategy.lower())` raises `ValueError` for unrecognized tags. -/
def executeRagTagged {M : Type} (st : VStore M) (tag : String) (question : String)
    (topK : Nat) : Except PyErr (RagResult M) :=
  match parseStrategy (pyLower tag) with
  | none => .error .valueErr
  | some s => executeRag st s question topK

/-! ## Conversation memory (`app/memory.py`, in-memory backend)

The module-level instance is `ConversationMemory()` with no redis URL, so
`redis_client` is `None` and the `_conversation_history` dict path runs. -/

/-- A conversation record: timestamp, question, answer, sources. -/
structure ConvTurn where
  timestamp : String
  question : String
  answer : String
  sources : List String
deriving DecidableEq

/-- The `_conversation_history` dict as a total map defaulting to the empty
list (matching `dict.get(session_id, [])`). -/
def ConvMem : Type := String → List ConvTurn

/-- The freshly constructed (empty) conversation store. -/
def emptyMem : ConvMem := fun _ => []

/-- `ConversationMemory.store_conversation`, in-memory path: insert the new
turn at index 0, then truncate the session list to 10 entries. -/
def storeConversation (mem : ConvMem) (sessionId : String) (turn : ConvTurn) : ConvMem :=
  fun sid => if sid = sessionId then (turn :: mem sessionId).take 10 else mem sid

/-- `ConversationMemory.get_conversation_history`, in-memory path:
`self._conversation_history.get(session_id, [])[:limit]`. -/
def getConversationHistory (mem : ConvMem) (sessionId : String) (limit : Nat) :
    List ConvTurn :=
  (mem sessionId).take limit

/-- Apply a sequence of `store_conversation` calls in order. -/
def applyStores (mem : ConvMem) (ops : List (String × ConvTurn)) : ConvMem :=
  ops.foldl (fun m p => storeConversation m p.1 p.2) mem

/-- The turns appended to one session, in call order. -/
def turnsFor (sessionId : String) (ops : List (String × ConvTurn)) : List ConvTurn :=
  (ops.filter (fun p => p.1 = sessionId)).map Prod.snd

/-! ## LLM client retry loop (`app/gemini_client.py`) -/

/-- Outcome of one `model.generate_content` call: it raises, or it returns a
response whose text is modelled as a string (the empty string models a falsy
`response.text`). -/
inductive AttemptOutcome
  | raises
  | returns (text : String)
deriving DecidableEq

/-- The fixed degraded apology returned after the final failed attempt. -/
def apologyMsg : String :=
  "Sorry, I\x27m experiencing technical difficulties. Please try again later."

/-- The message returned on an empty model response. -/
def emptyRespMsg : String :=
  "I couldn\x27t generate a response for this question. Please try again."

/-- `retry_delay = 2`. -/
def retryDelay : Nat := 2

/-- The `for attempt in range(max_retries)` loop of `generate_response`,
recursing over the remaining attempts. Returns the response string, the list
of sleep durations performed, and the number of attempts made. The fuel-zero
case is unreachable from `generateResponse` since `max_retries = 3`. -/
def genAttempts (b : Nat → AttemptOutcome) : Nat → Nat → String × List Nat × Nat
  | _, 0 => (apologyMsg, [], 0)
  | attempt, r + 1 =>
    match b attempt with
    | .returns t => if t ≠ "" then (t, [], 1) else (emptyRespMsg, [], 1)
    | .raises =>
      if r = 0 then (apologyMsg, [], 1)
      else
        let rest := genAttempts b (attempt + 1) r
        (rest.1, retryDelay * (attempt + 1) :: rest.2.1, rest.2.2 + 1)

/-- `GeminiClient.generate_response` with `max_retries = 3`, parameterized by
the outcome of each attempt. -/
def generateResponse (b : Nat → AttemptOutcome) : String × List Nat × Nat :=
  genAttempts b 0 3

/-! ## Concrete instances used to exercise the theorems -/

/-- A store answering every query with one fixed paired result. -/
def wStore : VStore Nat :=
  ⟨fun _ _ => .ok ⟨[["doc one", "doc two"]], [[1, 2]]⟩,
   fun _ _ => .ok ⟨[["doc three"]], [[3]]⟩⟩

/-- A store whose broad result pairs "A doc" with metadata 10 and
"B doc bbb" with metadata 20; a question containing "bbb" reranks
"B doc bbb" first while the metadata order stays put. -/
def desyncStore : VStore Nat :=
  ⟨fun _ _ => .ok ⟨[["A doc", "B doc bbb"]], [[10, 20]]⟩,
   fun _ _ => .ok ⟨[[]], [[]]⟩⟩

/-- A store whose collection query always raises. -/
def failStore : VStore Nat :=
  ⟨fun _ _ => .error .storeErr, fun _ _ => .error .storeErr⟩

/-- A distinguishable conversation turn for each index. -/
def mkTurn (i : Nat) : ConvTurn :=
  ⟨toString i, "q", "a", []⟩

/-- Eleven appends to the single session "s". -/
def elevenOps : List (String × ConvTurn) :=
  (List.range 11).map (fun i => ("s", mkTurn i))

end LLMHTML

namespace LLMHTML

/-! ## Sorting lemmas for the reranker -/

lemma perm_insertDesc (x : Nat × String) (l : List (Nat × String)) :
    (insertDesc x l).Perm (x :: l) := by
  induction l with
  | nil => simp [insertDesc]
  | cons y ys ih =>
    by_cases h : y.1 ≤ x.1
    · simp [insertDesc, h]
    · simp only [insertDesc, if_neg h]
      exact List.Perm.trans (List.Perm.cons y ih) (List.Perm.swap x y ys)

lemma perm_sortDesc (l : List (Nat × String)) : (sortDesc l).Perm l := by
  induction l with
  | nil => simp [sortDesc]
  | cons x xs ih => exact (perm_insertDesc x (sortDesc xs)).trans (ih.cons x)

lemma mem_insertDesc {a x : Nat × String} {l : List (Nat × String)} :
    a ∈ insertDesc x l ↔ a = x ∨ a ∈ l := by
  rw [(perm_insertDesc x l).mem_iff, List.mem_cons]

lemma pairwise_insertDesc {x : Nat × String} {l : List (Nat × String)}
    (h : l.Pairwise (fun a b => b.1 ≤ a.1)) :
    (insertDesc x l).Pairwise (fun a b => b.1 ≤ a.1) := by
  induction l with
  | nil => simp [insertDesc]
  | cons y ys ih =>
    rcases List.pairwise_cons.mp h with ⟨hy, hys⟩
    by_cases hle : y.1 ≤ x.1
    · simp only [insertDesc, if_pos hle]
      refine List.Pairwise.cons ?_ h
      intro z hz
      rcases List.mem_cons.mp hz with rfl | hz
      · exact hle
      · exact le_trans (hy z hz) hle
    · simp only [insertDesc, if_neg hle]
      refine List.Pairwise.cons ?_ (ih hys)
      intro z hz
      rcases mem_insertDesc.mp hz with rfl | hz
      · exact Nat.le_of_lt (Nat.lt_of_not_le hle)
      · exact hy z hz

lemma pairwise_sortDesc (l : List (Nat × String)) :
    (sortDesc l).Pairwise (fun a b => b.1 ≤ a.1) := by
  induction l with
  | nil => simp [sortDesc]
  | cons x xs ih => exact pairwise_insertDesc ih

lemma filter_insertDesc (x : Nat × String) (l : List (Nat × String)) (s : Nat) :
    (insertDesc x l).filter (fun p => p.1 == s) =
      if x.1 = s then x :: l.filter (fun p => p.1 == s)
      else l.filter (fun p => p.1 == s) := by
  induction l with
  | nil => by_cases h : x.1 = s <;> simp [insertDesc, h]
  | cons y ys ih =>
    by_cases hle : y.1 ≤ x.1
    · simp only [insertDesc]
      rw [if_pos hle]
      by_cases hx : x.1 = s <;> simp [List.filter_cons, hx]
    · simp only [insertDesc]
      rw [if_neg hle]
      by_cases hx : x.1 = s
      · by_cases hy : y.1 = s
        · exact absurd (hy.trans hx.symm ▸ le_refl y.1) hle
        · simp [List.filter_cons, hy, ih, hx]
      · simp [List.filter_cons, ih, hx]

lemma filter_sortDesc (l : List (Nat × String)) (s : Nat) :
    (sortDesc l).filter (fun p => p.1 == s) = l.filter (fun p => p.1 == s) := by
  induction l with
  | nil => rfl
  | cons x xs ih =>
    rw [sortDesc, filter_insertDesc]
    by_cases hx : x.1 = s <;> simp [List.filter_cons, hx, ih]

/-! ## Reranker lemmas -/

lemma rerank_perm (q : String) (docs : List String) :
    (rerankDocuments q docs).Perm docs := by
  unfold rerankDocuments
  have h1 := (perm_sortDesc (docs.map (fun d => (scoreDoc q d, d)))).map Prod.snd
  rw [List.map_map] at h1
  have h2 : docs.map (Prod.snd ∘ fun d => (scoreDoc q d, d)) = docs := by
    simp [Function.comp_def]
  rw [h2] at h1
  exact h1

lemma rerank_length (q : String) (docs : List String) :
    (rerankDocuments q docs).length = docs.length :=
  (rerank_perm q docs).length_eq

lemma score_fst {q : String} {docs : List String} {p : Nat × String}
    (hp : p ∈ sortDesc (docs.map (fun d => (scoreDoc q d, d)))) :
    p.1 = scoreDoc q p.2 := by
  have hmem := (perm_sortDesc (docs.map (fun d => (scoreDoc q d, d)))).mem_iff.mp hp
  rcases List.mem_map.mp hmem with ⟨d, _, rfl⟩
  rfl

lemma rerank_pairwise (q : String) (docs : List String) :
    (rerankDocuments q docs).Pairwise (fun a b => scoreDoc q b ≤ scoreDoc q a) := by
  unfold rerankDocuments
  have hs := pairwise_sortDesc (docs.map (fun d => (scoreDoc q d, d)))
  have hs2 : (sortDesc (docs.map (fun d => (scoreDoc q d, d)))).Pairwise
      (fun a b => scoreDoc q b.2 ≤ scoreDoc q a.2) := by
    refine hs.imp_of_mem ?_
    intro a b ha hb hab
    rw [← score_fst ha, ← score_fst hb]
    exact hab
  exact hs2.map Prod.snd (fun a b h => h)

lemma map_snd_filter (p : String → Bool) (l : List (Nat × String)) :
    (l.map Prod.snd).filter p = (l.filter (fun x => p x.2)).map Prod.snd := by
  induction l with
  | nil => rfl
  | cons x xs ih => by_cases h : p x.2 <;> simp [List.filter_cons, h, ih]

lemma filter_map_pair (q : String) (s : Nat) (docs : List String) :
    ((docs.map (fun d => (scoreDoc q d, d))).filter (fun x => x.1 == s)).map Prod.snd
      = docs.filter (fun d => scoreDoc q d == s) := by
  induction docs with
  | nil => rfl
  | cons d ds ih => by_cases h : scoreDoc q d = s <;> simp [List.filter_cons, h, ih]

lemma rerank_filter (q : String) (docs : List String) (s : Nat) :
    (rerankDocuments q docs).filter (fun d => scoreDoc q d == s) =
      docs.filter (fun d => scoreDoc q d == s) := by
  unfold rerankDocuments
  rw [map_snd_filter]
  have hcongr : (sortDesc (docs.map (fun d => (scoreDoc q d, d)))).filter
        (fun x => scoreDoc q x.2 == s) =
      (sortDesc (docs.map (fun d => (scoreDoc q d, d)))).filter (fun x => x.1 == s) := by
    refine List.filter_congr ?_
    intro a ha
    rw [score_fst ha]
  rw [hcongr, filter_sortDesc, filter_map_pair]

lemma rerank_head {q : String} {docs : List String} {d : String} (hd : d ∈ docs)
    (hmax : ∀ e ∈ docs, e = d ∨ scoreDoc q e < scoreDoc q d) :
    (rerankDocuments q docs).head? = some d := by
  have hperm := rerank_perm q docs
  have hdmem : d ∈ rerankDocuments q docs := hperm.mem_iff.mpr hd
  cases hrw : rerankDocuments q docs with
  | nil => rw [hrw] at hdmem; cases hdmem
  | cons y t =>
    rw [hrw] at hdmem hperm
    have hpw := rerank_pairwise q docs
    rw [hrw] at hpw
    have hy : y ∈ docs := hperm.subset (List.mem_cons_self y t)
    rcases hmax y hy with rfl | hlt
    · rfl
    · rcases List.mem_cons.mp hdmem with rfl | hdt
      · exact absurd hlt (lt_irrefl _)
      · have hle := (List.pairwise_cons.mp hpw).1 d hdt
        omega

end LLMHTML

namespace LLMHTML

/-! ## Merge lemmas -/

/-- Invariant of the merge state: the merged documents are duplicate-free,
lists stay in lockstep, and every merged document has been marked seen. -/
def MergeInv {M : Type} (st : MergeState M) : Prop :=
  st.docs.Nodup ∧ st.docs.length = st.metas.length ∧ ∀ x ∈ st.docs, x ∈ st.seen

lemma mergeStep1_inv {M : Type} {st : MergeState M} {p : String × M}
    (h : MergeInv st) : MergeInv (mergeStep1 st p) := by
  rcases h with ⟨h1, h2, h3⟩
  unfold mergeStep1
  by_cases hmem : p.1 ∈ st.seen
  · rw [if_pos hmem]; exact ⟨h1, h2, h3⟩
  · rw [if_neg hmem]
    refine ⟨?_, by simp [h2], ?_⟩
    · have hnd : p.1 ∉ st.docs := fun hx => hmem (h3 _ hx)
      simp [List.nodup_append, h1, hnd]
    · intro x hx
      rcases List.mem_append.mp hx with hx | hx
      · exact List.mem_cons_of_mem _ (h3 x hx)
      · simp only [List.mem_singleton] at hx
        subst hx
        exact List.mem_cons_self _ _

lemma mergeStep2_inv {M : Type} {cap : Nat} {st : MergeState M} {p : String × M}
    (h : MergeInv st) : MergeInv (mergeStep2 cap st p) := by
  rcases h with ⟨h1, h2, h3⟩
  unfold mergeStep2
  by_cases hc : p.1 ∉ st.seen ∧ st.docs.length < cap
  · rw [if_pos hc]
    refine ⟨?_, by simp [h2], ?_⟩
    · have hnd : p.1 ∉ st.docs := fun hx => hc.1 (h3 _ hx)
      simp [List.nodup_append, h1, hnd]
    · intro x hx
      rcases List.mem_append.mp hx with hx | hx
      · exact List.mem_cons_of_mem _ (h3 x hx)
      · simp only [List.mem_singleton] at hx
        subst hx
        exact List.mem_cons_self _ _
  · rw [if_neg hc]; exact ⟨h1, h2, h3⟩

lemma mergeStep1_zip {M : Type} {st : MergeState M} {p : String × M}
    (hlen : st.docs.length = st.metas.length) :
    (mergeStep1 st p).docs.zip (mergeStep1 st p).metas = st.docs.zip st.metas ∨
    (mergeStep1 st p).docs.zip (mergeStep1 st p).metas = st.docs.zip st.metas ++ [p] := by
  unfold mergeStep1
  by_cases hmem : p.1 ∈ st.seen
  · left; rw [if_pos hmem]
  · right; rw [if_neg hmem]
    show (st.docs ++ [p.1]).zip (st.metas ++ [p.2]) = _
    rw [List.zip_append hlen]
    rfl

lemma mergeStep2_zip {M : Type} {cap : Nat} {st : MergeState M} {p : String × M}
    (hlen : st.docs.length = st.metas.length) :
    (mergeStep2 cap st p).docs.zip (mergeStep2 cap st p).metas = st.docs.zip st.metas ∨
    (mergeStep2 cap st p).docs.zip (mergeStep2 cap st p).metas
      = st.docs.zip st.metas ++ [p] := by
  unfold mergeStep2
  by_cases hc : p.1 ∉ st.seen ∧ st.docs.length < cap
  · right; rw [if_pos hc]
    show (st.docs ++ [p.1]).zip (st.metas ++ [p.2]) = _
    rw [List.zip_append hlen]
    rfl
  · left; rw [if_neg hc]

lemma mergeStep1_len {M : Type} (st : MergeState M) (p : String × M) :
    (mergeStep1 st p).docs.length ≤ st.docs.length + 1 := by
  unfold mergeStep1
  by_cases hmem : p.1 ∈ st.seen
  · rw [if_pos hmem]; omega
  · rw [if_neg hmem]; simp

lemma mergeStep2_cap {M : Type} {cap : Nat} (st : MergeState M) (p : String × M)
    (h : st.docs.length ≤ cap) : (mergeStep2 cap st p).docs.length ≤ cap := by
  unfold mergeStep2
  by_cases hc : p.1 ∉ st.seen ∧ st.docs.length < cap
  · rw [if_pos hc]; simp; omega
  · rw [if_neg hc]; exact h

lemma merge_loop1 {M : Type} (l : List (String × M)) (st : MergeState M)
    (h : MergeInv st) :
    MergeInv (l.foldl mergeStep1 st) ∧
    (l.foldl mergeStep1 st).docs.length ≤ st.docs.length + l.length ∧
    ∀ p ∈ (l.foldl mergeStep1 st).docs.zip (l.foldl mergeStep1 st).metas,
      p ∈ st.docs.zip st.metas ∨ p ∈ l := by
  induction l generalizing st with
  | nil => exact ⟨h, by simp, fun p hp => Or.inl hp⟩
  | cons q qs ih =>
    rw [List.foldl_cons]
    rcases ih (mergeStep1 st q) (mergeStep1_inv h) with ⟨hinv, hlen, hpairs⟩
    refine ⟨hinv, ?_, ?_⟩
    · have := mergeStep1_len st q
      simp only [List.length_cons]
      omega
    · intro p hp
      rcases hpairs p hp with hp2 | hp2
      · rcases @mergeStep1_zip M st q h.2.1 with hz | hz
        · rw [hz] at hp2; exact Or.inl hp2
        · rw [hz] at hp2
          rcases List.mem_append.mp hp2 with hp3 | hp3
          · exact Or.inl hp3
          · simp only [List.mem_singleton] at hp3
            subst hp3
            exact Or.inr (List.mem_cons_self _ _)
      · exact Or.inr (List.mem_cons_of_mem _ hp2)

lemma merge_loop2 {M : Type} (cap : Nat) (l : List (String × M)) (st : MergeState M)
    (h : MergeInv st) (hcap : st.docs.length ≤ cap) :
    MergeInv (l.foldl (mergeStep2 cap) st) ∧
    (l.foldl (mergeStep2 cap) st).docs.length ≤ cap ∧
    ∀ p ∈ (l.foldl (mergeStep2 cap) st).docs.zip (l.foldl (mergeStep2 cap) st).metas,
      p ∈ st.docs.zip st.metas ∨ p ∈ l := by
  induction l generalizing st with
  | nil => exact ⟨h, hcap, fun p hp => Or.inl hp⟩
  | cons q qs ih =>
    rw [List.foldl_cons]
    rcases ih (mergeStep2 cap st q) (mergeStep2_inv h) (mergeStep2_cap st q hcap) with
      ⟨hinv, hlen, hpairs⟩
    refine ⟨hinv, hlen, ?_⟩
    intro p hp
    rcases hpairs p hp with hp2 | hp2
    · rcases @mergeStep2_zip M cap st q h.2.1 with hz | hz
      · rw [hz] at hp2; exact Or.inl hp2
      · rw [hz] at hp2
        rcases List.mem_append.mp hp2 with hp3 | hp3
        · exact Or.inl hp3
        · simp only [List.mem_singleton] at hp3
          subst hp3
          exact Or.inr (List.mem_cons_self _ _)
    · exact Or.inr (List.mem_cons_of_mem _ hp2)

/-- The successful output of `_merge_results`: a single-query-shaped result
with duplicate-free, lockstep inner lists. -/
lemma mergeResults_shape {M : Type} (r1 r2 : StoreResult M) {c : StoreResult M}
    (h : mergeResults r1 r2 = .ok c) :
    ∃ md mm, c = ⟨[md], [mm]⟩ ∧ md.Nodup ∧ md.length = mm.length := by
  rcases r1 with ⟨ds1, ms1⟩
  rcases r2 with ⟨ds2, ms2⟩
  cases ds1 with
  | nil => simp [mergeResults, pyHead] at h
  | cons d1 dt1 =>
    cases ds2 with
    | nil => simp [mergeResults, pyHead] at h
    | cons d2 dt2 =>
      cases ms1 with
      | nil => simp [mergeResults, pyHead] at h
      | cons m1 mt1 =>
        cases ms2 with
        | nil => simp [mergeResults, pyHead] at h
        | cons m2 mt2 =>
          simp only [mergeResults, pyHead] at h
          set s1 := (d1.zip m1).foldl mergeStep1 ⟨[], [], []⟩ with hs1
          set s2 := (d2.zip m2).foldl (mergeStep2 (d1.length + d2.length)) s1 with hs2
          have hinv0 : MergeInv (M := M) ⟨[], [], []⟩ := ⟨List.nodup_nil, rfl, by simp⟩
          rcases merge_loop1 (d1.zip m1) ⟨[], [], []⟩ hinv0 with ⟨hinv1, hlen1, _⟩
          have hcap1 : s1.docs.length ≤ d1.length + d2.length := by
            simp only [List.length_nil] at hlen1
            have hz : (d1.zip m1).length ≤ d1.length := by
              rw [List.length_zip]; omega
            simp only [hs1]
            omega
          rcases merge_loop2 (d1.length + d2.length) (d2.zip m2) s1 hinv1 hcap1 with
            ⟨hinv2, hlen2, _⟩
          refine ⟨s2.docs, s2.metas, ?_, hinv2.1, hinv2.2.1⟩
          cases h
          rfl

/-! ## Strategy-level lemmas -/

lemma vdbSearch_cases {M : Type} {st : VStore M}
    (h : ∀ q k r, st.collQuery q k = .ok r → PairedOk r) (q : String) (k : Nat) :
    vdbSearch (st.collQuery q k) = ⟨[], []⟩ ∨ PairedOk (vdbSearch (st.collQuery q k)) := by
  cases hq : st.collQuery q k with
  | error e => exact Or.inl rfl
  | ok r => exact Or.inr (h q k r hq)

lemma basic_lengths {M : Type} {st : VStore M}
    (h : ∀ q k r, st.collQuery q k = .ok r → PairedOk r) (q : String) (k : Nat) :
    lengthsOk (basicRag st q k) = true := by
  simp only [basicRag]
  rcases vdbSearch_cases h q k with he | ⟨ds, ms, hd, hm, hlen⟩
  · rw [he]
    rfl
  · rw [hd, hm]
    simp [lengthsOk, hlen]

lemma hierarchical_lengths {M : Type} {st : VStore M}
    (h : ∀ q k r, st.collQuery q k = .ok r → PairedOk r) (q : String) (bk fk : Nat) :
    lengthsOk (hierarchicalRag st q bk fk) = true := by
  simp only [hierarchicalRag]
  rcases vdbSearch_cases h q bk with he | ⟨ds, ms, hd, hm, hlen⟩
  · rw [he]
    rfl
  · rw [hd, hm]
    simp [lengthsOk, List.length_take, rerank_length, hlen]

lemma hybrid_lengths {M : Type} {st : VStore M}
    (h1 : ∀ q k r, st.collQuery q k = .ok r → PairedOk r) {q : String} {k : Nat}
    {res : RagResult M} (h : hybridRag st q k = .ok res) : lengthsOk res = true := by
  simp only [hybridRag] at h
  by_cases hkw : extractKeywords q ≠ []
  · rw [if_pos hkw] at h
    cases hm : mergeResults (vdbSearch (st.collQuery q k))
        (keywordSearch st (extractKeywords q) k) with
    | error e => rw [hm] at h; simp at h
    | ok c =>
      rw [hm] at h
      injection h with h2
      subst h2
      rcases mergeResults_shape _ _ hm with ⟨md, mm, rfl, hnd, hlen⟩
      simp [lengthsOk, hlen]
  · rw [if_neg hkw] at h
    injection h with h2
    subst h2
    rcases vdbSearch_cases h1 q k with he | ⟨ds, ms, hd, hm2, hlen⟩
    · rw [he]
      simp [lengthsOk]
    · rw [hd, hm2]
      simp [lengthsOk, hlen]

lemma adaptive_lengths {M : Type} {st : VStore M}
    (hst : ∀ q k r, st.collQuery q k = .ok r → PairedOk r) {q : String} {k : Nat}
    {res : RagResult M} (h : adaptiveRag st q k = .ok res) : lengthsOk res = true := by
  simp only [adaptiveRag] at h
  by_cases h1 : assessQuestionComplexity q = "simple"
  · rw [if_pos h1] at h
    injection h with h2
    subst h2
    exact basic_lengths hst q k
  · rw [if_neg h1] at h
    by_cases h2 : assessQuestionComplexity q = "medium"
    · rw [if_pos h2] at h
      exact hybrid_lengths hst h
    · rw [if_neg h2] at h
      injection h with h3
      subst h3
      exact hierarchical_lengths hst q 15 k

lemma mergeResults_not_storeErr {M : Type} (r1 r2 : StoreResult M) :
    mergeResults r1 r2 ≠ .error .storeErr := by
  rcases r1 with ⟨ds1, ms1⟩
  rcases r2 with ⟨ds2, ms2⟩
  cases ds1 <;> cases ds2 <;> cases ms1 <;> cases ms2 <;>
    simp [mergeResults, pyHead]

lemma hybrid_not_storeErr {M : Type} (st : VStore M) (q : String) (k : Nat) :
    hybridRag st q k ≠ .error .storeErr := by
  simp only [hybridRag]
  by_cases hkw : extractKeywords q ≠ []
  · rw [if_pos hkw]
    cases hm : mergeResults (vdbSearch (st.collQuery q k))
        (keywordSearch st (extractKeywords q) k) with
    | error e =>
      have hne := mergeResults_not_storeErr (vdbSearch (st.collQuery q k))
        (keywordSearch st (extractKeywords q) k)
      rw [hm] at hne
      simpa using hne
    | ok c => simp
  · rw [if_neg hkw]
    simp

lemma adaptive_not_storeErr {M : Type} (st : VStore M) (q : String) (k : Nat) :
    adaptiveRag st q k ≠ .error .storeErr := by
  simp only [adaptiveRag]
  by_cases h1 : assessQuestionComplexity q = "simple"
  · rw [if_pos h1]; simp
  · rw [if_neg h1]
    by_cases h2 : assessQuestionComplexity q = "medium"
    · rw [if_pos h2]; exact hybrid_not_storeErr st q k
    · rw [if_neg h2]; simp

/-! ## Conversation memory lemmas -/

lemma take_append_take {α : Type} (a b : List α) (n : Nat) :
    (a ++ b.take n).take n = (a ++ b).take n := by
  rw [List.take_append_eq_append_take, List.take_append_eq_append_take, List.take_take,
    Nat.min_eq_left (Nat.sub_le n a.length)]

lemma storeConversation_bounded {mem : ConvMem} (hmem : ∀ s, (mem s).take 10 = mem s)
    (sessionId : String) (turn : ConvTurn) (s : String) :
    (storeConversation mem sessionId turn s).take 10
      = storeConversation mem sessionId turn s := by
  unfold storeConversation
  by_cases h : s = sessionId
  · rw [if_pos h, List.take_take, Nat.min_self]
  · rw [if_neg h]
    exact hmem s

lemma applyStores_eq (ops : List (String × ConvTurn)) (mem : ConvMem)
    (hmem : ∀ s, (mem s).take 10 = mem s) (sid : String) :
    applyStores mem ops sid = ((turnsFor sid ops).reverse ++ mem sid).take 10 := by
  induction ops generalizing mem with
  | nil =>
    simp only [applyStores, List.foldl_nil, turnsFor, List.filter_nil, List.map_nil,
      List.reverse_nil, List.nil_append]
    exact (hmem sid).symm
  | cons op rest ih =>
    show applyStores (storeConversation mem op.1 op.2) rest sid = _
    rw [ih (storeConversation mem op.1 op.2) (storeConversation_bounded hmem op.1 op.2)]
    by_cases h : op.1 = sid
    · have hsid : sid = op.1 := h.symm
      have hstore : storeConversation mem op.1 op.2 sid = (op.2 :: mem op.1).take 10 := by
        unfold storeConversation
        rw [if_pos hsid]
      have hturns : turnsFor sid (op :: rest) = op.2 :: turnsFor sid rest := by
        unfold turnsFor
        rw [List.filter_cons_of_pos (by simpa using h)]
        rfl
      rw [hstore, hturns, List.reverse_cons, take_append_take, hsid]
      rw [List.append_assoc]
      rfl
    · have hstore : storeConversation mem op.1 op.2 sid = mem sid := by
        unfold storeConversation
        rw [if_neg (fun hc => h hc.symm)]
      have hturns : turnsFor sid (op :: rest) = turnsFor sid rest := by
        unfold turnsFor
        rw [List.filter_cons_of_neg (by simpa using h)]
      rw [hstore, hturns]

/-! ## Gemini retry-loop lemmas -/

lemma generateResponse_cases (b : Nat → AttemptOutcome) :
    (∃ t, b 0 = .returns t ∧
      generateResponse b = (if t ≠ "" then t else emptyRespMsg, [], 1)) ∨
    (∃ t, b 0 = .raises ∧ b 1 = .returns t ∧
      generateResponse b = (if t ≠ "" then t else emptyRespMsg, [2], 2)) ∨
    (∃ t, b 0 = .raises ∧ b 1 = .raises ∧ b 2 = .returns t ∧
      generateResponse b = (if t ≠ "" then t else emptyRespMsg, [2, 4], 3)) ∨
    (b 0 = .raises ∧ b 1 = .raises ∧ b 2 = .raises ∧
      generateResponse b = (apologyMsg, [2, 4], 3)) := by
  unfold generateResponse
  cases h0 : b 0 with
  | returns t0 =>
    refine Or.inl ⟨t0, rfl, ?_⟩
    simp only [genAttempts, h0]
    by_cases ht : t0 = "" <;> simp [ht]
  | raises =>
    cases h1 : b 1 with
    | returns t1 =>
      refine Or.inr (Or.inl ⟨t1, rfl, rfl, ?_⟩)
      simp only [genAttempts, h0, h1]
      by_cases ht : t1 = "" <;> simp [ht, retryDelay]
    | raises =>
      cases h2 : b 2 with
      | returns t2 =>
        refine Or.inr (Or.inr (Or.inl ⟨t2, rfl, rfl, rfl, ?_⟩))
        simp only [genAttempts, h0, h1, h2]
        by_cases ht : t2 = "" <;> simp [ht, retryDelay]
      | raises =>
        refine Or.inr (Or.inr (Or.inr ⟨rfl, rfl, rfl, ?_⟩))
        simp [genAttempts, h0, h1, h2, retryDelay]

/-! ## Claim theorems -/

/-- Claim C1: for every question and each of the four recognized strategies,
the RetrievalResult returned by execute_rag (over any well-behaved store) has
a document sequence and a metadata sequence of equal length, corresponding by
index. -/
theorem retrieval_lengths_align : ∀ (M : Type) (st : VStore M), VStoreOk st →
    ∀ (strategy : RAGStrategy) (q : String) (k : Nat) (res : RagResult M),
      executeRag st strategy q k = .ok res → lengthsOk res = true := by
  intro M st hst strategy q k res h
  cases strategy with
  | basic =>
    simp only [executeRag] at h
    injection h with h2
    subst h2
    exact basic_lengths hst.1 q k
  | hierarchical =>
    simp only [executeRag] at h
    injection h with h2
    subst h2
    exact hierarchical_lengths hst.1 q 10 k
  | hybrid =>
    simp only [executeRag] at h
    exact hybrid_lengths hst.1 h
  | adaptive =>
    simp only [executeRag] at h
    exact adaptive_lengths hst.1 h

/-- Witness for C1: the basic strategy over the concrete store `wStore`. -/
theorem retrieval_lengths_align_witness :
    lengthsOk (RagResult.flat ["doc one", "doc two"] ([1, 2] : List Nat)
      "basic" "semantic") = true :=
  retrieval_lengths_align Nat wStore
    ⟨fun _ _ r hr => by
        injection hr with h2
        exact h2 ▸ ⟨["doc one", "doc two"], [1, 2], rfl, rfl, rfl⟩,
      fun _ _ r hr => by
        injection hr with h2
        exact h2 ▸ ⟨["doc three"], [3], rfl, rfl, rfl⟩⟩
    .basic "q" 3 _ rfl

/-- Claim C2: execute_rag with a strategy tag that is not one of the four
recognized values fails with a ValueError (the enum constructor raises) and
never returns a result, so it cannot silently fall back to basic. -/
theorem unknown_strategy_errors : ∀ (M : Type) (st : VStore M) (tag q : String) (k : Nat),
    pyLower tag ∉ (["basic", "hierarchical", "hybrid", "adaptive"] : List String) →
    executeRagTagged st tag q k = .error .valueErr ∧
    ∀ res, executeRagTagged st tag q k ≠ .ok res := by
  intro M st tag q k hno
  have hno2 : pyLower tag ≠ "basic" ∧ pyLower tag ≠ "hierarchical" ∧
      pyLower tag ≠ "hybrid" ∧ pyLower tag ≠ "adaptive" := by
    simpa [not_or] using hno
  obtain ⟨h1, h2, h3, h4⟩ := hno2
  have hp : parseStrategy (pyLower tag) = none := by
    unfold parseStrategy
    rw [if_neg h1, if_neg h2, if_neg h3, if_neg h4]
  constructor
  · unfold executeRagTagged
    rw [hp]
  · intro res hc
    unfold executeRagTagged at hc
    rw [hp] at hc
    exact Except.noConfusion hc

/-- Witness for C2: the unrecognized tag "nonsense". -/
theorem unknown_strategy_errors_witness :
    executeRagTagged wStore "nonsense" "q" 3 = .error .valueErr :=
  (unknown_strategy_errors Nat wStore "nonsense" "q" 3 (by decide)).1

/-- Claim C3: the hierarchical reranker scores each candidate by the number
of whitespace-delimited lowercase question tokens occurring as substrings of
the lowercased document, sorts candidates stably in descending score order
(a permutation whose equal-score classes keep their original order), the
hierarchical stage truncates the reranked list to final_top_k, and a
candidate with a strictly higher score than every other candidate is placed
first. -/
theorem rerank_stable_desc : ∀ (q : String) (docs : List String),
    (rerankDocuments q docs).Perm docs ∧
    (rerankDocuments q docs).Pairwise (fun a b => scoreDoc q b ≤ scoreDoc q a) ∧
    (∀ s, (rerankDocuments q docs).filter (fun d => scoreDoc q d == s) =
          docs.filter (fun d => scoreDoc q d == s)) ∧
    (∀ (M : Type) (st : VStore M) (bk fk : Nat) (d0 : List String)
        (dr : List (List String)),
        (vdbSearch (st.collQuery q bk)).documents = d0 :: dr →
        ∃ ms, hierarchicalRag st q bk fk =
          .flat ((rerankDocuments q d0).take fk) ms "hierarchical" "two_stage") ∧
    (∀ d ∈ docs, (∀ e ∈ docs, e = d ∨ scoreDoc q e < scoreDoc q d) →
        (rerankDocuments q docs).head? = some d) := by
  intro q docs
  refine ⟨rerank_perm q docs, rerank_pairwise q docs, fun s => rerank_filter q docs s,
    ?_, ?_⟩
  · intro M st bk fk d0 dr hdocs
    simp only [hierarchicalRag]
    rw [hdocs]
    exact ⟨_, rfl⟩
  · intro d hd hmax
    exact rerank_head hd hmax

/-- Witness for C3: "alpha beta here" shares strictly more question tokens
than the other candidates and is reranked to the first position. -/
theorem rerank_stable_desc_witness :
    (rerankDocuments "alpha beta" ["zz", "alpha beta here", "qq"]).head? =
      some "alpha beta here" :=
  (rerank_stable_desc "alpha beta" ["zz", "alpha beta here", "qq"]).2.2.2.2
    "alpha beta here" (by decide) (by decide)

/-- Claim C4: with a non-empty broad result, hierarchical retrieval returns
the broad metadata truncated to final_top_k in the original pre-rerank order
while the documents are reranked, so a rerank that reorders documents pairs
metadata with the wrong document. In the concrete instance, "B doc bbb" is
reranked first but keeps metadata 10, which belonged to "A doc". -/
theorem hierarchical_metadata_by_position :
    (∀ (M : Type) (st : VStore M) (q : String) (bk fk : Nat)
        (d0 : List String) (dr : List (List String)) (m0 : List M)
        (mr : List (List M)),
        (vdbSearch (st.collQuery q bk)).documents = d0 :: dr →
        (vdbSearch (st.collQuery q bk)).metadatas = m0 :: mr →
        hierarchicalRag st q bk fk =
          .flat ((rerankDocuments q d0).take fk) (m0.take fk)
            "hierarchical" "two_stage") ∧
    hierarchicalRag desyncStore "bbb" 2 2 =
      .flat ["B doc bbb", "A doc"] [10, 20] "hierarchical" "two_stage" := by
  constructor
  · intro M st q bk fk d0 dr m0 mr hdocs hmetas
    simp only [hierarchicalRag]
    rw [hdocs, hmetas]
  · decide

/-- Witness for C4: the general equation instantiated at `desyncStore`. -/
theorem hierarchical_metadata_by_position_witness :
    hierarchicalRag desyncStore "zzz" 1 1 =
      .flat ["A doc"] [10] "hierarchical" "two_stage" :=
  (hierarchical_metadata_by_position).1 Nat desyncStore "zzz" 1 1
    ["A doc", "B doc bbb"] [] [10, 20] [] rfl rfl

/-- Claim C5: adaptive retrieval routes by the complexity classifier: a
question containing a complex indicator (checked first) goes to hierarchical
with broad_top_k = 15 and final_top_k = top_k; otherwise one containing a
simple indicator is classified "medium" and goes to hybrid; otherwise it is
classified "simple" and goes to basic. "Why do black holes evaporate?" is
complex and "What is entropy?" is medium. -/
theorem adaptive_routing :
    (∀ (M : Type) (st : VStore M) (q : String) (k : Nat),
        adaptiveRag st q k =
          if complexIndicators.any (fun w => pyIn w (pyLower q)) then
            .ok (hierarchicalRag st q 15 k)
          else if simpleIndicators.any (fun w => pyIn w (pyLower q)) then
            hybridRag st q k
          else .ok (basicRag st q k)) ∧
    assessQuestionComplexity "Why do black holes evaporate?" = "complex" ∧
    assessQuestionComplexity "What is entropy?" = "medium" := by
  refine ⟨?_, by decide, by decide⟩
  intro M st q k
  cases hc : complexIndicators.any (fun w => pyIn w (pyLower q)) with
  | true =>
    have ha : assessQuestionComplexity q = "complex" := by
      simp [assessQuestionComplexity, hc]
    unfold adaptiveRag
    rw [ha, if_neg (show ¬(("complex" : String) = "simple") by decide),
      if_neg (show ¬(("complex" : String) = "medium") by decide)]
    rfl
  | false =>
    cases hs : simpleIndicators.any (fun w => pyIn w (pyLower q)) with
    | true =>
      have ha : assessQuestionComplexity q = "medium" := by
        simp [assessQuestionComplexity, hc, hs]
      unfold adaptiveRag
      rw [ha, if_neg (show ¬(("medium" : String) = "simple") by decide),
        if_pos (show ("medium" : String) = "medium" from rfl)]
      rfl
    | false =>
      have ha : assessQuestionComplexity q = "simple" := by
        simp [assessQuestionComplexity, hc, hs]
      unfold adaptiveRag
      rw [ha, if_pos (show ("simple" : String) = "simple" from rfl)]
      rfl

/-- Claim C6: the hybrid merge keeps semantic pairs first (first occurrence of
each document text only), then appends unseen keyword pairs under the
sum-of-lengths cap; consequently the merged document list has no duplicate
document texts, stays in lockstep with its metadata, is bounded by the sum of
the input lengths, and every merged pair comes from one of the two inputs. -/
theorem merge_no_duplicates : ∀ (M : Type) (d1 : List String) (m1 : List M)
    (d2 : List String) (m2 : List M) (md : List String) (mm : List M),
    mergeResults ⟨[d1], [m1]⟩ ⟨[d2], [m2]⟩ = .ok ⟨[md], [mm]⟩ →
    md.Nodup ∧ md.length = mm.length ∧ md.length ≤ d1.length + d2.length ∧
    ∀ p ∈ md.zip mm, p ∈ d1.zip m1 ∨ p ∈ d2.zip m2 := by
  intro M d1 m1 d2 m2 md mm h
  simp only [mergeResults, pyHead] at h
  injection h with h2
  injection h2 with hdocs hmetas
  injection hdocs with hdocs2
  injection hmetas with hmetas2
  subst hdocs2
  subst hmetas2
  have hinv0 : MergeInv (M := M) ⟨[], [], []⟩ := ⟨List.nodup_nil, rfl, by simp⟩
  rcases merge_loop1 (d1.zip m1) ⟨[], [], []⟩ hinv0 with ⟨hinv1, hlen1, hpairs1⟩
  have hcap1 : ((d1.zip m1).foldl mergeStep1 ⟨[], [], []⟩).docs.length
      ≤ d1.length + d2.length := by
    simp only [List.length_nil] at hlen1
    have hz : (d1.zip m1).length ≤ d1.length := by
      rw [List.length_zip]; omega
    omega
  rcases merge_loop2 (d1.length + d2.length) (d2.zip m2)
      ((d1.zip m1).foldl mergeStep1 ⟨[], [], []⟩) hinv1 hcap1 with ⟨hinv2, hlen2, hpairs2⟩
  refine ⟨hinv2.1, hinv2.2.1, hlen2, ?_⟩
  intro p hp
  rcases hpairs2 p hp with hin | hin
  · rcases hpairs1 p hin with h0 | h0
    · simp at h0
    · exact Or.inl h0
  · exact Or.inr hin

/-- Witness for C6: the semantic and keyword stub results share the duplicate
document "dup doc"; the merged output keeps it once, with its semantic
metadata. -/
theorem merge_no_duplicates_witness :
    (["alpha print", "dup doc", "gamma"] : List String).Nodup ∧
    (["alpha print", "dup doc", "gamma"] : List String).length
      = ([1, 2, 4] : List Nat).length ∧
    (["alpha print", "dup doc", "gamma"] : List String).length ≤
      (["alpha print", "dup doc"] : List String).length
        + (["dup doc", "gamma"] : List String).length ∧
    ∀ p ∈ (["alpha print", "dup doc", "gamma"] : List String).zip
        ([1, 2, 4] : List Nat),
      p ∈ (["alpha print", "dup doc"] : List String).zip ([1, 2] : List Nat) ∨
      p ∈ (["dup doc", "gamma"] : List String).zip ([3, 4] : List Nat) :=
  merge_no_duplicates Nat ["alpha print", "dup doc"] [1, 2] ["dup doc", "gamma"]
    [3, 4] ["alpha print", "dup doc", "gamma"] [1, 2, 4] rfl

/-- Claim C7: keyword extraction lowercases, splits on whitespace, keeps
tokens longer than 3 characters that are not stopwords, and takes the first
5 in original order; "what is 3D printing" yields exactly ["printing"]. -/
theorem extract_keywords_spec :
    (∀ q, extractKeywords q =
        ((pySplit (pyLower q)).filter
          (fun w => decide (3 < w.length) && !(stopWords.contains w))).take 5) ∧
    (∀ q, List.Sublist (extractKeywords q) (pySplit (pyLower q))) ∧
    (∀ q, (extractKeywords q).length ≤ 5) ∧
    extractKeywords "what is 3D printing" = ["printing"] := by
  refine ⟨fun q => rfl, fun q => ?_, fun q => ?_, by decide⟩
  · exact (List.take_sublist _ _).trans (List.filter_sublist _)
  · unfold extractKeywords
    simp [List.length_take]

/-- Claim C8: a session's stored turn list is exactly the reversal of the
turns appended to it truncated to 10 (so it never exceeds 10 entries and is
most-recent-first); get_conversation_history returns at most `limit` turns
and the empty sequence for an unknown session; after 11 appends to one
session, reading with limit 100 returns exactly the 10 most recent turns,
most recent first. -/
theorem conversation_memory_bounds :
    (∀ ops sid, applyStores emptyMem ops sid = (turnsFor sid ops).reverse.take 10) ∧
    (∀ ops sid, (applyStores emptyMem ops sid).length ≤ 10) ∧
    (∀ mem sid limit, (getConversationHistory mem sid limit).length ≤ limit) ∧
    (∀ sid limit, getConversationHistory emptyMem sid limit = []) ∧
    getConversationHistory (applyStores emptyMem elevenOps) "s" 100 =
      ((List.range 11).reverse.take 10).map mkTurn ∧
    (getConversationHistory (applyStores emptyMem elevenOps) "s" 100).length = 10 := by
  have hmain : ∀ ops sid, applyStores emptyMem ops sid
      = (turnsFor sid ops).reverse.take 10 := by
    intro ops sid
    rw [applyStores_eq ops emptyMem (fun s => rfl) sid]
    simp [emptyMem]
  refine ⟨hmain, ?_, ?_, ?_, by decide, by decide⟩
  · intro ops sid
    rw [hmain]
    simp [List.length_take]
  · intro mem sid limit
    simp [getConversationHistory, List.length_take]
  · intro sid limit
    simp [getConversationHistory, emptyMem]

/-- Claim C9: generate_response makes at most 3 attempts, sleeps with
linearly increasing backoff (2·(attempt+1) seconds) between failed attempts,
returns the fixed apology string when every attempt raises, and always
returns a string (the embedding is a total function into String). -/
theorem generate_response_total_retry :
    (∀ b, (generateResponse b).2.2 ≤ 3) ∧
    (∀ b, ∃ k, k ≤ 2 ∧ (generateResponse b).2.1 =
        (List.range k).map (fun i => retryDelay * (i + 1))) ∧
    (∀ b, (∀ n, n < 3 → b n = .raises) → (generateResponse b).1 = apologyMsg) ∧
    generateResponse (fun _ => .raises) = (apologyMsg, [2, 4], 3) := by
  refine ⟨?_, ?_, ?_, by decide⟩
  · intro b
    rcases generateResponse_cases b with ⟨t, h0, hg⟩ | ⟨t, h0, h1, hg⟩ |
      ⟨t, h0, h1, h2, hg⟩ | ⟨h0, h1, h2, hg⟩ <;> rw [hg] <;> simp
  · intro b
    rcases generateResponse_cases b with ⟨t, h0, hg⟩ | ⟨t, h0, h1, hg⟩ |
      ⟨t, h0, h1, h2, hg⟩ | ⟨h0, h1, h2, hg⟩
    · exact ⟨0, by omega, by rw [hg]; rfl⟩
    · exact ⟨1, by omega, by rw [hg]; rfl⟩
    · exact ⟨2, by omega, by rw [hg]; rfl⟩
    · exact ⟨2, by omega, by rw [hg]; rfl⟩
  · intro b hall
    rcases generateResponse_cases b with ⟨t, h0, hg⟩ | ⟨t, h0, h1, hg⟩ |
      ⟨t, h0, h1, h2, hg⟩ | ⟨h0, h1, h2, hg⟩
    · rw [hall 0 (by omega)] at h0
      cases h0
    · rw [hall 1 (by omega)] at h1
      cases h1
    · rw [hall 2 (by omega)] at h2
      cases h2
    · rw [hg]

/-- Witness for C9: with every attempt raising, the apology string is
returned. -/
theorem generate_response_total_retry_witness :
    (generateResponse (fun _ => .raises)).1 = apologyMsg :=
  (generate_response_total_retry).2.2.1 (fun _ => .raises) (fun _ _ => rfl)

/-- Claim C10: when the underlying collection query raises,
VectorDatabase.search returns the empty result dict instead of propagating,
_basic_rag then returns empty document and metadata lists, and no strategy
of execute_rag ever surfaces the store-level exception to its caller. -/
theorem search_error_degrades :
    ∀ (M : Type) (st : VStore M) (q : String) (k : Nat),
      (∀ e, st.collQuery q k = .error e →
        vdbSearch (st.collQuery q k) = ⟨[], []⟩ ∧
        basicRag st q k = .flat [] [] "basic" "semantic") ∧
      (∀ strategy, executeRag st strategy q k ≠ .error .storeErr) := by
  intro M st q k
  constructor
  · intro e he
    constructor
    · rw [he]
      rfl
    · simp only [basicRag]
      rw [he]
      rfl
  · intro strategy
    cases strategy with
    | basic => simp [executeRag]
    | hierarchical => simp [executeRag]
    | hybrid => exact hybrid_not_storeErr st q k
    | adaptive => exact adaptive_not_storeErr st q k

/-- Witness for C10: over `failStore`, whose collection query always raises. -/
theorem search_error_degrades_witness :
    (vdbSearch (failStore.collQuery "q" 3) = ⟨[], []⟩ ∧
      basicRag failStore "q" 3 = .flat [] [] "basic" "semantic") ∧
    executeRag failStore .hybrid "q" 3 ≠ .error .storeErr :=
  ⟨(search_error_degrades Nat failStore "q" 3).1 .storeErr rfl,
   (search_error_degrades Nat failStore "q" 3).2 .hybrid⟩

end LLMHTML
